import Mathlib

/-!
# Verification of the FEM.edu domain core (Node / Element / Recorder)

Shallow embedding of `src/femedu/domain/Node.py`, `src/femedu/elements/Element.py`
and the recorder interface, together with proofs and refutations of the
specification claims about them.

Modelling conventions:
* numpy floating-point arrays are modelled as `List ℚ` (all inputs used in the
  concrete runs are exactly representable, and none of the claims concerns
  floating-point rounding);
* Python object identity of numpy arrays matters for the checkpoint claims, so
  a node carries an explicit heap (`heap : List (List ℚ)`) of array objects and
  the fields `disp`, `disp_pushed`, `disp_mode` hold *references* (indices)
  into that heap, mirroring Python reference semantics;
* Python `dict`s are modelled as association lists with unique keys, first
  match wins on lookup;
* a Python method that can raise is modelled either as returning
  `Except String _` (pure queries) or as returning `_ × Option String`
  (mutators: the state reached when the exception propagates, plus the error).
-/

/-- `np.zeros(n)` -/
def zeros (n : Nat) : List ℚ := List.replicate n 0

/-- Reading an array object from the heap (the object referenced by `r`). -/
def heapRead (h : List (List ℚ)) (r : Nat) : List ℚ := h.getD r []

/-- Overwriting the array object referenced by `r` (in-place mutation). -/
def heapWrite (h : List (List ℚ)) (r : Nat) (v : List ℚ) : List (List ℚ) := h.set r v

/-- Creating a fresh array object on the heap; returns the new heap and the
reference to the new object. -/
def heapAlloc (h : List (List ℚ)) (v : List ℚ) : List (List ℚ) × Nat :=
  (h ++ [v], h.length)

/-- Lookup in `self.dofs` (a Python dict `str -> int`, modelled as an
association list with unique keys). -/
def dofLookup : List (String × Nat) → String → Option Nat
  | [], _ => none
  | (k, v) :: rest, c => if k = c then some v else dofLookup rest c

/-- Lookup in a Python dict `str -> float` (`self.loads`). -/
def loadLookup : List (String × ℚ) → String → Option ℚ
  | [], _ => none
  | (k, v) :: rest, c => if k = c then some v else loadLookup rest c

/-- Python dict assignment `d[c] = v` for `str -> float` dicts: replace the
existing entry or append a new one. -/
def loadSet : List (String × ℚ) → String → ℚ → List (String × ℚ)
  | [], c, v => [(c, v)]
  | (k, w) :: rest, c, v =>
      if k = c then (c, v) :: rest else (k, w) :: loadSet rest c v

/-- Lookup in `self.dof_maps` (keyed by the calling element, modelled by an
element identifier). -/
def dofMapLookup : List (Nat × List Nat) → Nat → Option (List Nat)
  | [], _ => none
  | (k, v) :: rest, e => if k = e then some v else dofMapLookup rest e

/-- Python dict assignment `self.dof_maps[caller] = dof_idx`. -/
def dofMapSet : List (Nat × List Nat) → Nat → List Nat → List (Nat × List Nat)
  | [], e, v => [(e, v)]
  | (k, w) :: rest, e, v =>
      if k = e then (e, v) :: rest else (k, w) :: dofMapSet rest e v

/-- The recorder contract.

Modelled from the spec: the `Recorder` class itself is not under `src/`
(only `Record.py` and the call sites are); §4.4/§6 of the spec give its
contract: `isActive()` gates sampling, `getVariables()` is an ordered list of
variable names, `addData(namedValues)` appends one sample to the time-history
buffer. -/
structure RecorderState where
  active : Bool
  varNames : List String  -- `variables` in the source; renamed (Lean keyword)
  data : List (List (String × ℚ))
deriving Repr, DecidableEq

/-- `Recorder.isActive()` (modelled from the spec, see `RecorderState`). -/
def RecorderState.isActive (r : RecorderState) : Bool := r.active

/-- `Recorder.addData(data)` (modelled from the spec, see `RecorderState`). -/
def RecorderState.addData (r : RecorderState) (d : List (String × ℚ)) : RecorderState :=
  { r with data := r.data ++ [d] }

/-- The state of a `Node` object (constructor `Node.__init__`).

`disp`, `disp_pushed` and `disp_mode` are references into `heap` (or `none`
for Python `None`); everything else is held by value.  `load_level` models the
Python attribute `self.load_level`: the constructor never creates it and no
method of `Node` ever assigns it, so it stays `none` (reading it raises
`AttributeError`). -/
structure NodeState where
  dofs : List (String × Nat) := []
  ndofs : Nat := 0
  fixity : List String := []
  loads : List (String × ℚ) := []
  hasLoadFlag : Bool := false
  loadfactor : ℚ := 1
  disp : Option Nat := none
  disp_pushed : Option Nat := none
  disp_mode : Option Nat := none
  heap : List (List ℚ) := []
  dof_maps : List (Nat × List Nat) := []
  elements : List Nat := []
  recorder : Option RecorderState := none
  load_level : Option ℚ := none

/-- A node fresh from the constructor (position is irrelevant to every claim
and therefore omitted). -/
def initNode : NodeState := {}

namespace Node

/-- The loop body of `Node.request`: for each code, allocate the next index if
the code is new, then append the (now defined) index `self.dofs[dof]`. -/
def requestGo : List (String × Nat) → Nat → List String → (List (String × Nat) × Nat) × List Nat
  | dofs, n, [] => ((dofs, n), [])
  | dofs, n, c :: rest =>
      match dofLookup dofs c with
      | some i =>
          let r := requestGo dofs n rest
          (r.1, i :: r.2)
      | none =>
          let r := requestGo (dofs ++ [(c, n)]) (n + 1) rest
          (r.1, n :: r.2)

/-- `Node.request(dof_list, caller)`. -/
def request (st : NodeState) (dof_list : List String) (caller : Nat) : NodeState × List Nat :=
  let r := requestGo st.dofs st.ndofs dof_list
  let els := if caller ∈ st.elements then st.elements else st.elements ++ [caller]
  ({ st with
      dofs := r.1.1
      ndofs := r.1.2
      elements := els
      dof_maps := dofMapSet st.dof_maps caller r.2 }, r.2)

/-- `Node.isFixed(dof)`. -/
def isFixed (st : NodeState) (dof : String) : Bool := dof ∈ st.fixity

/-- `Node.getFixedDofs()` (returns a copy of the list; value semantics make
the copy implicit). -/
def getFixedDofs (st : NodeState) : List String := st.fixity

/-- `Node.areFixed()`: `for i, dof in enumerate(self._fixity): idx.append(i)`.
Note that the code appends the enumeration counter `i`, not `self.dofs[dof]`. -/
def areFixed (st : NodeState) : List Nat :=
  (st.fixity.enum.map (fun p => p.1))

/-- `Node.pushU()`: `self.disp_pushed = self.disp` stores the *reference* to
the current displacement array (no copy is taken). -/
def pushU (st : NodeState) : NodeState := { st with disp_pushed := st.disp }

/-- `Node.popU()`. -/
def popU (st : NodeState) : NodeState × Option String :=
  match st.disp_pushed with
  | some r => ({ st with disp := some r }, none)
  | none => (st, some "TypeError: no pushed displacement data available")

/-- `Node._updateDisp(dU)`: `self.disp += dU`.  numpy `+=` mutates the array
object in place (element-wise addition; broadcasting is not needed for the
equal-length vectors the solver passes). -/
def updateDisp (st : NodeState) (dU : List ℚ) : NodeState × Option String :=
  match st.disp with
  | some r =>
      ({ st with heap := heapWrite st.heap r (List.zipWith (· + ·) (heapRead st.heap r) dU) }, none)
  | none => (st, some "TypeError: unsupported operand type for +=")

/-- The per-code loop of `Node.setDisp` when a `dof_list` is given:
`self.disp[self.dofs[dof]] = ui` writes through the reference, in place. -/
def setDispGo (st : NodeState) (modeshape : Bool) : List (ℚ × String) → NodeState × Option String
  | [] => (st, none)
  | (ui, dof) :: rest =>
      match dofLookup st.dofs dof with
      | some i =>
          match (if modeshape then st.disp_mode else st.disp) with
          | some r =>
              setDispGo { st with heap := heapWrite st.heap r ((heapRead st.heap r).set i ui) }
                modeshape rest
          | none => (st, some "TypeError: NoneType object does not support item assignment")
      | none => (st, some ("requested dof:" ++ dof ++ " not present at current node"))

/-- `Node.setDisp(U, dof_list, modeshape)`.  The source tests `if dof_list:`,
so both `None` and an *empty* list are falsy and take the else branch, which
rebinds the whole vector (`self.disp = U`): a fresh array object is installed
and the old reference dropped. -/
def setDisp (st : NodeState) (U : List ℚ) (dof_list : Option (List String))
    (modeshape : Bool) : NodeState × Option String :=
  let overwrite : NodeState × Option String :=
    let a := heapAlloc st.heap U
    if modeshape then ({ st with heap := a.1, disp_mode := some a.2 }, none)
    else ({ st with heap := a.1, disp := some a.2 }, none)
  match dof_list with
  | some dl => if dl.isEmpty then overwrite else setDispGo st modeshape (List.zip U dl)
  | none => overwrite

/-- The displacement vector `U` as read at the top of `Node.getDisp` (the
array referenced by `self.disp`, or `np.zeros(self.ndofs)` if unset). -/
def dispVec (st : NodeState) : List ℚ :=
  match st.disp with
  | some r => heapRead st.heap r
  | none => zeros st.ndofs

/-- Fancy indexing `U[idx]` for an index list (raises `IndexError` when an
index is out of range, as numpy does). -/
def fancyIndex (U : List ℚ) : List Nat → Except String (List ℚ)
  | [] => .ok []
  | i :: rest =>
      match U.get? i with
      | some v => (fancyIndex U rest).map (fun t => v :: t)
      | none => .error "IndexError"

/-- The `dofs=...` branch of `Node.getDisp`: one entry per requested code, a
registered code indexes `U`, an absent code contributes `0.0`. -/
def getByCodes (dofs : List (String × Nat)) (U : List ℚ) : List String → Except String (List ℚ)
  | [] => .ok []
  | c :: rest =>
      match dofLookup dofs c with
      | some i =>
          match U.get? i with
          | some v => (getByCodes dofs U rest).map (fun t => v :: t)
          | none => .error "IndexError"
      | none => (getByCodes dofs U rest).map (fun t => (0 : ℚ) :: t)

/-- `Node.getDisp(caller, dofs, modeshape)`.  The method also mutates the node
when the requested vector is still `None` (it installs a zero vector), so the
result carries the possibly-updated state.  The source tests `if dofs:`, so an
*empty* dofs list is falsy and yields the full displacement vector, exactly
like `dofs=None`. -/
def getDisp (st : NodeState) (caller : Option Nat) (dofs : Option (List String))
    (modeshape : Bool) : Except String (List ℚ) × NodeState :=
  let p : List ℚ × NodeState :=
    if modeshape then
      match st.disp_mode with
      | some r => (heapRead st.heap r, st)
      | none =>
          let a := heapAlloc st.heap (zeros st.ndofs)
          (zeros st.ndofs, { st with heap := a.1, disp_mode := some a.2 })
    else
      match st.disp with
      | some r => (heapRead st.heap r, st)
      | none =>
          let a := heapAlloc st.heap (zeros st.ndofs)
          (zeros st.ndofs, { st with heap := a.1, disp := some a.2 })
  match caller with
  | some e =>
      match dofMapLookup p.2.dof_maps e with
      | some idx => (fancyIndex p.1 idx, p.2)
      | none => (.error "caller not registered with this node", p.2)
  | none =>
      match dofs with
      | some dl =>
          if dl.isEmpty then (.ok p.1, p.2)
          else (getByCodes p.2.dofs p.1 dl, p.2)
      | none => (.ok p.1, p.2)

/-- `Node.addLoad(loads, dofs)`: accumulate into the load dict. -/
def addLoad (st : NodeState) (loads : List ℚ) (dofs : List String) : NodeState :=
  let newLoads := (List.zip loads dofs).foldl
    (fun acc p =>
      match loadLookup acc p.2 with
      | some w => loadSet acc p.2 (w + p.1)
      | none => loadSet acc p.2 p.1) st.loads
  { st with loads := newLoads, hasLoadFlag := true }

/-- `Node.setLoad(loads, dofs)`: overwrite entries of the load dict. -/
def setLoad (st : NodeState) (loads : List ℚ) (dofs : List String) : NodeState :=
  let newLoads := (List.zip loads dofs).foldl (fun acc p => loadSet acc p.2 p.1) st.loads
  { st with loads := newLoads, hasLoadFlag := true }

/-- The loop of `Node.getLoad`: `force[self.dofs[dof]] = ...` for every stored
load whose code is registered; unregistered codes are skipped.  An index out
of range would raise `IndexError` (never happens for states built through
`request`). -/
def getLoadGo (dofs : List (String × Nat)) (lf : ℚ) (applyFactor : Bool)
    (force : List ℚ) : List (String × ℚ) → Except String (List ℚ)
  | [] => .ok force
  | (dof, v) :: rest =>
      match dofLookup dofs dof with
      | some i =>
          if i < force.length then
            getLoadGo dofs lf applyFactor (force.set i (if applyFactor then v * lf else v)) rest
          else .error "IndexError"
      | none => getLoadGo dofs lf applyFactor force rest

/-- `Node.getLoad(apply_load_factor)` (the unused `dof_list` parameter is
omitted; the code never reads it). -/
def getLoad (st : NodeState) (applyFactor : Bool) : Except String (List ℚ) :=
  getLoadGo st.dofs st.loadfactor applyFactor (zeros st.ndofs) st.loads

/-- `Node.setRecorder(recorder)`. -/
def setRecorder (st : NodeState) (r : Option RecorderState) : NodeState :=
  { st with recorder := r }

/-- `Node.recordThisStep(load_level)`: the body reads `self.load_level`, an
attribute that no code path of `Node` ever assigns (the method's *parameter*
is `load_level`), so an active recorder makes the read raise
`AttributeError`. -/
def recordThisStep (st : NodeState) (_load_level : ℚ) : NodeState × Option String :=
  match st.recorder with
  | some rec =>
      if rec.isActive then
        match st.load_level with
        | some lv => ({ st with recorder := some (rec.addData [("lam", lv)]) }, none)
        | none => (st, some "AttributeError: Node object has no attribute load_level")
      else (st, none)
  | none => (st, none)

end Node

mutual

/-- A Python argument as accepted by `Node.fixDOF(*dofs)`: a string, a
list/tuple of further arguments, or a value of any other type.  (`PyArgList`
is a specialized list type so that mutual structural recursion over the
nesting is available.) -/
inductive PyArg where
  | str (s : String)
  | lst (l : PyArgList)
  | other

inductive PyArgList where
  | nil
  | cons (a : PyArg) (l : PyArgList)

end

mutual

/-- All strings contained (recursively) in one `fixDOF` argument. -/
def PyArg.strings : PyArg → List String
  | .str s => [s]
  | .lst l => PyArgList.strings l
  | .other => []

/-- All strings contained (recursively) in a `fixDOF` argument list. -/
def PyArgList.strings : PyArgList → List String
  | .nil => []
  | .cons a l => PyArg.strings a ++ PyArgList.strings l

end

mutual

/-- One iteration of the `for dof in dofs` loop of `Node.fixDOF`: a string is
appended to `self._fixity` unless already present, a list/tuple is recursed
into via `self.fixDOF(item)`, anything else raises `TypeError` (mutations made
before the raise persist on the node). -/
def Node.fixOne (fix : List String) : PyArg → List String × Option String
  | .str s => (if s ∈ fix then fix else fix ++ [s], none)
  | .lst l => Node.fixArgs fix l
  | .other => (fix, some "TypeError")

/-- `Node.fixDOF(*dofs)` acting on the `_fixity` list. -/
def Node.fixArgs (fix : List String) : PyArgList → List String × Option String
  | .nil => (fix, none)
  | .cons a rest =>
      match Node.fixOne fix a with
      | (fix1, none) => Node.fixArgs fix1 rest
      | (fix1, some e) => (fix1, some e)

end

/-- `Node.fixDOF(*dofs)` on the node state. -/
def Node.fixDOF (st : NodeState) (dofs : PyArgList) : NodeState × Option String :=
  let r := Node.fixArgs st.fixity dofs
  ({ st with fixity := r.1 }, r.2)

/-- The topology categories of `DrawElement.TYPE` used by
`Element.initialize` / `Element.createFaces`. -/
inductive ElementType where
  | LINE
  | CURVE
  | TRIANGLE
  | QUAD
  | TETRAHEDRON
  | BRICK
  | UNKNOWN
deriving Repr, DecidableEq

/-- The not-implemented error raised by `Element.createFaces`. -/
def facesNotImplemented : String := "NotImplementedError: createFaces not implemented"

namespace Element

/-- `Element.createFaces()`: a face is modelled by the ordered list of local
node indices handed to the `Face2D`/`Face3D` constructor (the cosmetic label
string `f"{self.ID}.{k}"` is elided).  The index tables are copied verbatim
from the source; every (topology, node-count) combination outside the tables
raises `NotImplementedError`. -/
def createFaces (t : ElementType) (nNds : Nat) : Except String (List (List Nat)) :=
  match t with
  | .LINE => .error facesNotImplemented
  | .CURVE => .error facesNotImplemented
  | .TRIANGLE =>
      if nNds = 3 then
        .ok [[0, 1], [1, 2], [2, 0]]
      else if nNds = 6 then
        .ok [[0, 3, 1], [1, 4, 2], [2, 5, 0]]
      else .error facesNotImplemented
  | .TETRAHEDRON =>
      if nNds = 4 then
        .ok [[0, 2, 1], [0, 1, 3], [1, 2, 3], [2, 0, 3]]
      else if nNds = 10 then
        .ok [[0, 2, 1, 6, 5, 4], [0, 1, 3, 4, 8, 7], [1, 2, 3, 5, 9, 8], [2, 0, 3, 6, 7, 9]]
      else .error facesNotImplemented
  | .QUAD =>
      if nNds = 4 then
        .ok [[0, 1], [1, 2], [2, 3], [3, 0]]
      else if nNds = 8 ∨ nNds = 9 then
        .ok [[0, 4, 1], [1, 5, 2], [2, 6, 3], [3, 7, 0]]
      else .error facesNotImplemented
  | .BRICK =>
      if nNds = 8 then
        .ok [[0, 3, 2, 1], [0, 1, 5, 4], [1, 2, 6, 5], [2, 3, 7, 6], [3, 0, 4, 7], [4, 5, 6, 7]]
      else if nNds = 20 then
        .ok [[0, 3, 2, 1, 11, 10, 9, 8],
             [0, 1, 5, 4, 8, 13, 16, 12],
             [1, 2, 6, 5, 9, 14, 17, 13],
             [2, 3, 7, 6, 10, 15, 18, 14],
             [3, 0, 4, 7, 11, 12, 19, 15],
             [4, 5, 6, 7, 16, 17, 18, 19]]
      else if nNds = 27 then
        .ok [[0, 3, 2, 1, 11, 10, 9, 8, 20],
             [0, 1, 5, 4, 8, 13, 16, 12, 21],
             [1, 2, 6, 5, 9, 14, 17, 13, 22],
             [2, 3, 7, 6, 10, 15, 18, 14, 23],
             [3, 0, 4, 7, 11, 12, 19, 15, 24],
             [4, 5, 6, 7, 16, 17, 18, 19, 25]]
      else .error facesNotImplemented
  | .UNKNOWN => .error facesNotImplemented

/-- `Element.initialize(type, dofs)` on an element with `nNds` nodes (renamed
`initElem` here because the source name is a Lean keyword): raises `TypeError`
when the mandatory `dofs` list is empty, otherwise requests the dofs from the
nodes and derives the faces via `createFaces`.  The result is the derived face
table. -/
def initElem (t : ElementType) (dofs : List String) (nNds : Nat) :
    Except String (List (List Nat)) :=
  if dofs.isEmpty then .error "TypeError: mandatory list of dofs is missing"
  else createFaces t nNds

end Element

/-- The proposition that the LINE topology has at least one node count for
which `createFaces` derives a face table (it does not: both branches raise). -/
def lineHasSupportedCount : Prop :=
  ∃ n : Nat, (Element.createFaces ElementType.LINE n).isOk = true

/-- The proposition that the CURVE topology has at least one supported node
count. -/
def curveHasSupportedCount : Prop :=
  ∃ n : Nat, (Element.createFaces ElementType.CURVE n).isOk = true

/-- A stiffness block (a square numpy matrix, modelled by value). -/
def Mat : Type := List (List ℚ)

/-- `numpy.ndarray.T` (matrix transpose). -/
def transposeM (M : Mat) : Mat :=
  (List.range (M.headD []).length).map (fun j => M.map (fun row => row.getD j 0))

/-- Modelled from the spec: `Node.m2l(vector_like, caller)` is not under
`src/` (the `Transformation` module is missing; only its callers are).  Per
§4.2 the vector transform converts each vector of the argument to the node's
local basis; applied to a matrix it acts "as a sequence of vector-like
transformations" (source comment), i.e. row by row through the attached
transformation matrix `T`. -/
def m2l (T : Mat) (M : Mat) : Mat :=
  M.map (fun v => T.map (fun trow => ((List.zipWith (· * ·) trow v).sum)))

/-- The per-block transformation sequence inside `Element.getStiffness`:
`KTij = KTij.T`; apply `ndJ.m2l` if node `j` has a transform; transpose back;
apply `ndI.m2l` if node `i` has a transform. -/
def blockTransform (trI trJ : Option Mat) (K : Mat) : Mat :=
  let K1 := transposeM K
  let K2 := match trJ with | some T => m2l T K1 | none => K1
  let K3 := transposeM K2
  match trI with | some T => m2l T K3 | none => K3

/-- The element state read by `Element.getStiffness`: the node-by-node block
matrix `self.Kt` (block objects live on a matrix heap, `Kt` holds their
references, mirroring Python object semantics so that `deepcopy` is
observable), and, for each incident node, that node's `transform` attribute.

Modelled from the spec (for the node part): `Node.hasTransform()` is not
under `src/`; per §4.2 a node either carries an attached transformation or
none, so each node is represented here by its optional transformation
matrix. -/
structure Elem5 where
  Kt : List (List Nat)
  nodeTransforms : List (Option Mat)

/-- Reading a block object from the matrix heap. -/
def readM (s : List Mat) (r : Nat) : Mat := s.getD r []

/-- In-place overwrite of a block object. -/
def writeM (s : List Mat) (r : Nat) (v : Mat) : List Mat := s.set r v

/-- `copy.deepcopy` of one row of `self.Kt`: every block is copied into a
fresh heap object. -/
def deepcopyRow (s : List Mat) : List Nat → List Mat × List Nat
  | [] => (s, [])
  | r :: rest =>
      let s1 := s ++ [readM s r]
      let nr := s.length
      let p := deepcopyRow s1 rest
      (p.1, nr :: p.2)

/-- `KT = deepcopy(self.Kt)`: a fresh object for every block; the internal
references in `self.Kt` are untouched. -/
def deepcopyKt (s : List Mat) : List (List Nat) → List Mat × List (List Nat)
  | [] => (s, [])
  | row :: rows =>
      let p := deepcopyRow s row
      let q := deepcopyKt p.1 rows
      (q.1, p.2 :: q.2)

/-- The inner `for j, ndJ in enumerate(self.nodes)` loop of
`Element.getStiffness`, iterating over the copied row zipped with the nodes'
transforms: a block is rewritten in place exactly when one of its endpoint
nodes carries a transformation. -/
def applyRow (trI : Option Mat) (s : List Mat) : List (Nat × Option Mat) → List Mat
  | [] => s
  | (r, trJ) :: rest =>
      let s1 := if trI.isSome ∨ trJ.isSome then
          writeM s r (blockTransform trI trJ (readM s r))
        else s
      applyRow trI s1 rest

/-- The outer `for i, ndI in enumerate(self.nodes)` loop of
`Element.getStiffness`. -/
def applyAll (trs : List (Option Mat)) (s : List Mat) : List (List Nat × Option Mat) → List Mat
  | [] => s
  | (row, trI) :: rest => applyAll trs (applyRow trI s (row.zip trs)) rest

/-- `Element.getStiffness()`.  `self.updateState()` is the external
material/kinematics contract (out of scope per §1/§4.3 of the spec), so it is
taken as a parameter `upd` acting on (matrix heap, element).  The method then
deep-copies the block matrix, congruence-transforms the copied blocks whose
endpoints carry transformations, and returns the copy; the element itself is
returned unchanged. -/
def Element.getStiffness (upd : List Mat × Elem5 → List Mat × Elem5)
    (ss : List Mat × Elem5) : (List Mat × Elem5) × List (List Nat) :=
  let p := upd ss
  let q := deepcopyKt p.1 p.2.Kt
  let s3 := applyAll p.2.nodeTransforms q.1 (q.2.zip p.2.nodeTransforms)
  ((s3, p.2), q.2)

/-- A node with one registered dof `ux` whose displacement vector was set to
`[1]` (the state just before `pushU()` in the failing run of claim C1). -/
def c1pre : NodeState :=
  (Node.setDisp (Node.request initNode ["ux"] 0).1 [1] none false).1

/-- Claim C1 (refuted): `pushU()` stores only a reference to the current
displacement array, and `_updateDisp` mutates that array in place, so after
`pushU(); _updateDisp([1]); popU()` the node reads `[2]`, not the pre-push
value `[1]`. -/
theorem c1_pushU_popU_fails_to_restore :
    (Node.getDisp c1pre none none false).1 = Except.ok [(1 : ℚ)] ∧
    (Node.getDisp
        (Node.popU (Node.updateDisp (Node.pushU c1pre) [1]).1).1
        none none false).1 = Except.ok [(2 : ℚ)] := by
  constructor
  · rfl
  · show Except.ok [(1 : ℚ) + 1] = Except.ok [(2 : ℚ)]
    norm_num

/-- A node that registered `ux` (index 0) and `uy` (index 1) and then fixed
`uy` (the failing input of claim C2). -/
def c2node : NodeState :=
  (Node.fixDOF (Node.request initNode ["ux", "uy"] 0).1
    (PyArgList.cons (PyArg.str "uy") PyArgList.nil)).1

/-- Claim C2 (refuted): `areFixed()` enumerates positions within the
`_fixity` list instead of looking the codes up in `self.dofs`: with `uy`
fixed (dof index 1) it returns `[0]`, which is the index of the *unfixed*
dof `ux`. -/
theorem c2_areFixed_returns_enumeration_positions :
    Node.areFixed c2node = [0] ∧
    Node.getFixedDofs c2node = ["uy"] ∧
    dofLookup c2node.dofs "uy" = some 1 ∧
    dofLookup c2node.dofs "ux" = some 0 := by
  refine ⟨rfl, rfl, rfl, rfl⟩

/-- A node with an attached, active recorder (the failing input of claim
C7). -/
def c7node : NodeState :=
  Node.setRecorder initNode (some { active := true, varNames := ["lam"], data := [] })

/-- Claim C7 (refuted for nodes): with an active recorder attached,
`Node.recordThisStep(load_level)` reads `self.load_level`, an attribute that
is never assigned, and therefore raises `AttributeError` instead of appending
to the recorder's buffer. -/
theorem c7_node_recordThisStep_raises :
    (c7node.recorder.map RecorderState.isActive) = some true ∧
    (Node.recordThisStep c7node (1 / 2)).2 =
      some "AttributeError: Node object has no attribute load_level" ∧
    ((Node.recordThisStep c7node (1 / 2)).1.recorder.map (fun r => r.data)) = some [] := by
  refine ⟨rfl, rfl, rfl⟩

/-- Claim C9: `popU()` on a node with no stored checkpoint raises `TypeError`
and leaves the node (in particular its displacement vector) unchanged. -/
theorem c9_popU_without_pushU_raises (st : NodeState) (h : st.disp_pushed = none) :
    Node.popU st = (st, some "TypeError: no pushed displacement data available") := by
  unfold Node.popU
  rw [h]

/-- Witness for `c9_popU_without_pushU_raises`: a node fresh from the
constructor has no checkpoint and `popU()` raises on it. -/
theorem c9_popU_witness :
    initNode.disp_pushed = none ∧
    Node.popU initNode = (initNode, some "TypeError: no pushed displacement data available") :=
  ⟨rfl, c9_popU_without_pushU_raises initNode rfl⟩

/-- Claim C6 (counterexample): the LINE topology category has *no* supported
node count — `Element.createFaces` raises `NotImplementedError` for LINE
unconditionally, so "each of the topology categories line, curve, ... has at
least one supported node count" is false. -/
theorem c6_line_has_no_supported_count : lineHasSupportedCount = False := by
  apply eq_false
  rintro ⟨n, h⟩
  simp [Element.createFaces, Except.isOk, Except.toBool] at h

/-- Claim C6 (amended): `initialize` raises when `dofCodes` is empty;
triangle (3, 6 nodes), quad (4, 8, 9), tetrahedron (4, 10) and brick
(8, 20, 27) each have fixed face tables, while line and curve always raise
not-implemented, as does every (topology, node-count) combination outside the
table. -/
theorem c6_topology_table :
    (∀ (t : ElementType) (n : Nat),
        Element.initElem t [] n = Except.error "TypeError: mandatory list of dofs is missing")
    ∧ Element.createFaces .TRIANGLE 3 = Except.ok [[0, 1], [1, 2], [2, 0]]
    ∧ Element.createFaces .TRIANGLE 6 = Except.ok [[0, 3, 1], [1, 4, 2], [2, 5, 0]]
    ∧ Element.createFaces .QUAD 4 = Except.ok [[0, 1], [1, 2], [2, 3], [3, 0]]
    ∧ Element.createFaces .QUAD 8 = Except.ok [[0, 4, 1], [1, 5, 2], [2, 6, 3], [3, 7, 0]]
    ∧ Element.createFaces .QUAD 9 = Except.ok [[0, 4, 1], [1, 5, 2], [2, 6, 3], [3, 7, 0]]
    ∧ Element.createFaces .TETRAHEDRON 4 =
        Except.ok [[0, 2, 1], [0, 1, 3], [1, 2, 3], [2, 0, 3]]
    ∧ (Element.createFaces .TETRAHEDRON 10).isOk = true
    ∧ (Element.createFaces .BRICK 8).isOk = true
    ∧ (Element.createFaces .BRICK 20).isOk = true
    ∧ (Element.createFaces .BRICK 27).isOk = true
    ∧ (∀ n : Nat, Element.createFaces .LINE n = Except.error facesNotImplemented)
    ∧ (∀ n : Nat, Element.createFaces .CURVE n = Except.error facesNotImplemented)
    ∧ (∀ n : Nat, n ≠ 3 → n ≠ 6 →
        Element.createFaces .TRIANGLE n = Except.error facesNotImplemented)
    ∧ (∀ n : Nat, n ≠ 4 → n ≠ 8 → n ≠ 9 →
        Element.createFaces .QUAD n = Except.error facesNotImplemented)
    ∧ (∀ n : Nat, n ≠ 4 → n ≠ 10 →
        Element.createFaces .TETRAHEDRON n = Except.error facesNotImplemented)
    ∧ (∀ n : Nat, n ≠ 8 → n ≠ 20 → n ≠ 27 →
        Element.createFaces .BRICK n = Except.error facesNotImplemented)
    ∧ (∀ n : Nat, Element.createFaces .UNKNOWN n = Except.error facesNotImplemented) := by
  refine ⟨fun t n => rfl, rfl, rfl, rfl, rfl, rfl, rfl, rfl, rfl, rfl, rfl,
    fun n => rfl, fun n => rfl, ?_, ?_, ?_, ?_, fun n => rfl⟩
  · intro n h3 h6
    simp [Element.createFaces, h3, h6]
  · intro n h4 h8 h9
    simp [Element.createFaces, h4, h8, h9]
  · intro n h4 h10
    simp [Element.createFaces, h4, h10]
  · intro n h8 h20 h27
    simp [Element.createFaces, h8, h20, h27]

/-- Witness for `c6_topology_table`: unsupported node counts raise. -/
theorem c6_topology_table_witness :
    Element.createFaces .TRIANGLE 5 = Except.error facesNotImplemented ∧
    Element.createFaces .QUAD 7 = Except.error facesNotImplemented ∧
    Element.createFaces .TETRAHEDRON 8 = Except.error facesNotImplemented ∧
    Element.createFaces .BRICK 6 = Except.error facesNotImplemented :=
  ⟨c6_topology_table.2.2.2.2.2.2.2.2.2.2.2.2.2.1 5 (by decide) (by decide),
   c6_topology_table.2.2.2.2.2.2.2.2.2.2.2.2.2.2.1 7 (by decide) (by decide) (by decide),
   c6_topology_table.2.2.2.2.2.2.2.2.2.2.2.2.2.2.2.1 8 (by decide) (by decide),
   c6_topology_table.2.2.2.2.2.2.2.2.2.2.2.2.2.2.2.2.1 6 (by decide) (by decide) (by decide)⟩

/-- A successful `dofLookup` returns an entry of the dict. -/
theorem dofLookup_mem {l : List (String × Nat)} {c : String} {i : Nat}
    (h : dofLookup l c = some i) : (c, i) ∈ l := by
  induction l with
  | nil => simp [dofLookup] at h
  | cons p rest ih =>
    obtain ⟨k, v⟩ := p
    by_cases hk : k = c
    · subst hk
      simp [dofLookup] at h
      simp [h]
    · simp [dofLookup, hk] at h
      exact List.mem_cons_of_mem _ (ih h)

/-- The `dofs=...` branch of `getDisp` evaluates, code by code, to the
registered displacement entry or to `0.0`, provided every registered index is
in range of the displacement vector. -/
theorem getByCodes_ok (dofs : List (String × Nat)) (U : List ℚ) (dl : List String)
    (H : ∀ p ∈ dofs, p.2 < U.length) :
    Node.getByCodes dofs U dl = Except.ok (dl.map fun c =>
      match dofLookup dofs c with
      | some i => U.getD i 0
      | none => 0) := by
  induction dl with
  | nil => rfl
  | cons c rest ih =>
    have hstep : Node.getByCodes dofs U (c :: rest) =
        match dofLookup dofs c with
        | some i =>
            match U.get? i with
            | some v => (Node.getByCodes dofs U rest).map (fun t => v :: t)
            | none => Except.error "IndexError"
        | none => (Node.getByCodes dofs U rest).map (fun t => (0 : ℚ) :: t) := rfl
    cases hc : dofLookup dofs c with
    | some i =>
      have hi : i < U.length := H (c, i) (dofLookup_mem hc)
      have hget : U.get? i = some (U.getD i 0) := by
        rw [List.get?_eq_getElem?, List.getElem?_eq_getElem hi, List.getD_eq_getElem?_getD,
          List.getElem?_eq_getElem hi]
        rfl
      rw [hstep, hc]
      dsimp only
      rw [hget, ih]
      simp [List.map_cons, hc, Except.map]
    | none =>
      rw [hstep, hc]
      dsimp only
      rw [ih]
      simp [List.map_cons, hc, Except.map]

/-- The node used in the counterexample and witness of claim C4: only `ux`
registered, with displacement `[3/2]`. -/
def c4node : NodeState :=
  (Node.setDisp (Node.request initNode ["ux"] 0).1 [3 / 2] none false).1

/-- Claim C4 (counterexample): the source tests `if dofs:`, so the *empty*
dofs list is falsy and `getDisp(dofs=[])` returns the full displacement
vector — here `[3/2]`, one entry, although the claim promises one value per
requested code, i.e. zero entries. -/
theorem c4_empty_dofs_returns_full_vector :
    (Node.getDisp c4node none (some ([] : List String)) false).1 =
      Except.ok [(3 / 2 : ℚ)]
    ∧ ([(3 / 2 : ℚ)] : List ℚ).length ≠ ([] : List String).length := by
  constructor
  · rfl
  · decide

/-- Claim C4 (amended): for every *non-empty* list of DOF codes passed as
`getDisp(dofs=...)` without a caller, `getDisp` returns one value per
requested code, in the requested order, substituting `0.0` for every code
never registered at the node, and no absent code makes it raise; an empty
dofs list is falsy in `if dofs:` and returns the full displacement vector
instead.  The hypothesis (all registered indices in range of the displacement
vector) holds for every node whose displacement is managed through the `Node`
interface. -/
theorem c4_getDisp_zero_fill (st : NodeState) (dl : List String)
    (H : ∀ p ∈ st.dofs, p.2 < (Node.dispVec st).length) (hne : dl ≠ []) :
    (Node.getDisp st none (some dl) false).1 = Except.ok (dl.map fun c =>
      match dofLookup st.dofs c with
      | some i => (Node.dispVec st).getD i 0
      | none => 0)
    ∧ (Node.getDisp st none (some ([] : List String)) false).1 =
        Except.ok (Node.dispVec st) := by
  have hie : dl.isEmpty = false := by
    cases dl with
    | nil => exact absurd rfl hne
    | cons c rest => rfl
  cases hd : st.disp with
  | some r =>
    have hU : Node.dispVec st = heapRead st.heap r := by simp [Node.dispVec, hd]
    rw [hU] at H
    constructor
    · simp [Node.getDisp, hd, hie, getByCodes_ok st.dofs _ dl H, hU]
    · simp [Node.getDisp, hd, hU]
  | none =>
    have hU : Node.dispVec st = zeros st.ndofs := by simp [Node.dispVec, hd]
    rw [hU] at H
    constructor
    · simp [Node.getDisp, hd, hie, getByCodes_ok st.dofs _ dl H, hU]
    · simp [Node.getDisp, hd, hU]

/-- Witness for `c4_getDisp_zero_fill`: requesting `('ux','rz')` at a node
that only registered `ux` yields `[3/2, 0.0]`. -/
theorem c4_getDisp_zero_fill_witness :
    (Node.getDisp c4node none (some ["ux", "rz"]) false).1 =
      Except.ok [(3 / 2 : ℚ), 0] :=
  ((c4_getDisp_zero_fill c4node ["ux", "rz"] (by decide) (by decide)).1).trans rfl

/-- When every registered dof index is below `n`, the `getLoad` loop never
hits the out-of-range case and preserves the vector length. -/
theorem getLoadGo_ok (dofs : List (String × Nat)) (lf : ℚ) (ap : Bool) {n : Nat}
    (H : ∀ p ∈ dofs, p.2 < n) :
    ∀ (loads : List (String × ℚ)) (force : List ℚ), force.length = n →
      ∃ v, Node.getLoadGo dofs lf ap force loads = Except.ok v ∧ v.length = n := by
  intro loads
  induction loads with
  | nil => exact fun force hf => ⟨force, rfl, hf⟩
  | cons p rest ih =>
    intro force hf
    obtain ⟨dof, w⟩ := p
    have hstep : Node.getLoadGo dofs lf ap force ((dof, w) :: rest) =
        match dofLookup dofs dof with
        | some i =>
            if i < force.length then
              Node.getLoadGo dofs lf ap (force.set i (if ap then w * lf else w)) rest
            else Except.error "IndexError"
        | none => Node.getLoadGo dofs lf ap force rest := rfl
    cases hc : dofLookup dofs dof with
    | some i =>
      have hi : i < force.length := by
        rw [hf]
        exact H (dof, i) (dofLookup_mem hc)
      rw [hstep, hc]
      dsimp only
      rw [if_pos hi]
      exact ih _ (by rw [List.length_set]; exact hf)
    | none =>
      rw [hstep, hc]
      exact ih force hf

/-- Stored load entries whose code is not registered at the node are skipped
by the `getLoad` loop: filtering them away does not change the result. -/
theorem getLoadGo_filter (dofs : List (String × Nat)) (lf : ℚ) (ap : Bool) :
    ∀ (loads : List (String × ℚ)) (force : List ℚ),
      Node.getLoadGo dofs lf ap force loads =
        Node.getLoadGo dofs lf ap force
          (loads.filter (fun p => (dofLookup dofs p.1).isSome)) := by
  intro loads
  induction loads with
  | nil => intro force; rfl
  | cons p rest ih =>
    intro force
    obtain ⟨dof, w⟩ := p
    have hstep : ∀ f rs, Node.getLoadGo dofs lf ap f ((dof, w) :: rs) =
        match dofLookup dofs dof with
        | some i =>
            if i < f.length then
              Node.getLoadGo dofs lf ap (f.set i (if ap then w * lf else w)) rs
            else Except.error "IndexError"
        | none => Node.getLoadGo dofs lf ap f rs := fun f rs => rfl
    cases hc : dofLookup dofs dof with
    | some i =>
      have hfil : ((dof, w) :: rest).filter (fun p => (dofLookup dofs p.1).isSome) =
          (dof, w) :: rest.filter (fun p => (dofLookup dofs p.1).isSome) := by
        simp [List.filter_cons, hc]
      rw [hfil, hstep, hstep, hc]
      dsimp only
      by_cases hi : i < force.length
      · rw [if_pos hi, if_pos hi, ih]
      · rw [if_neg hi, if_neg hi]
    | none =>
      have hfil : ((dof, w) :: rest).filter (fun p => (dofLookup dofs p.1).isSome) =
          rest.filter (fun p => (dofLookup dofs p.1).isSome) := by
        simp [List.filter_cons, hc]
      rw [hfil, hstep, hc]
      dsimp only
      exact ih force

/-- Claim C10: `getLoad()` returns a vector of length `ndofs` and never
raises; stored load entries keyed by a code never registered at the node are
silently omitted (filtering them away changes nothing), with or without the
load factor applied.  The hypothesis (registered indices below `ndofs`) holds
for every node whose dofs are managed through `request`. -/
theorem c10_getLoad_skips_unregistered (st : NodeState) (ap : Bool)
    (H : ∀ p ∈ st.dofs, p.2 < st.ndofs) :
    (∃ v, Node.getLoad st ap = Except.ok v ∧ v.length = st.ndofs)
    ∧ Node.getLoad st ap =
        Node.getLoad
          { st with loads := st.loads.filter (fun p => (dofLookup st.dofs p.1).isSome) } ap := by
  constructor
  · exact getLoadGo_ok st.dofs st.loadfactor ap H st.loads (zeros st.ndofs) (by simp [zeros])
  · exact getLoadGo_filter st.dofs st.loadfactor ap st.loads (zeros st.ndofs)

/-- The node used in the witness of claim C10: dofs `ux`, `uy` registered,
loads set for `ux` (registered) and `qq` (never registered). -/
def c10node : NodeState :=
  Node.setLoad (Node.request initNode ["ux", "uy"] 0).1 [10, 7] ["ux", "qq"]

/-- Witness for `c10_getLoad_skips_unregistered` at a concrete node; the
stored `qq -> 7` entry contributes nothing and the vector is `[10, 0]`. -/
theorem c10_getLoad_witness :
    ((∃ v, Node.getLoad c10node false = Except.ok v ∧ v.length = c10node.ndofs)
      ∧ Node.getLoad c10node false =
          Node.getLoad
            { c10node with
              loads := c10node.loads.filter (fun p => (dofLookup c10node.dofs p.1).isSome) }
            false)
    ∧ Node.getLoad c10node false = Except.ok [10, 0] :=
  ⟨c10_getLoad_skips_unregistered c10node false (by decide), rfl⟩

mutual

/-- Processing one `fixDOF` argument preserves the no-duplicates invariant of
the `_fixity` list. -/
theorem fixOne_nodup : ∀ (fix : List String) (a : PyArg),
    fix.Nodup → (Node.fixOne fix a).1.Nodup
  | fix, .str s, h => by
      by_cases hs : s ∈ fix
      · simpa [Node.fixOne, hs] using h
      · simp only [Node.fixOne, if_neg hs]
        rw [List.nodup_append]
        exact ⟨h, List.nodup_singleton s, fun x hx hx' => hs (by
          rw [List.mem_singleton] at hx'
          rwa [hx'] at hx)⟩
  | fix, .lst l, h => fixArgs_nodup fix l h
  | _, .other, h => h

/-- Processing a `fixDOF` argument list preserves the no-duplicates invariant
of the `_fixity` list. -/
theorem fixArgs_nodup : ∀ (fix : List String) (l : PyArgList),
    fix.Nodup → (Node.fixArgs fix l).1.Nodup
  | _, .nil, h => h
  | fix, .cons a rest, h => by
      have h1 : (Node.fixOne fix a).1.Nodup := fixOne_nodup fix a h
      have hstep : Node.fixArgs fix (.cons a rest) =
          match Node.fixOne fix a with
          | (fix1, none) => Node.fixArgs fix1 rest
          | (fix1, some e) => (fix1, some e) := rfl
      rw [hstep]
      cases hfo : Node.fixOne fix a with
      | mk fix1 e =>
        rw [hfo] at h1
        cases e with
        | none => exact fixArgs_nodup fix1 rest h1
        | some e => exact h1

end

mutual

/-- On success, processing one `fixDOF` argument makes the `_fixity` list
contain exactly the old entries plus the strings of the argument. -/
theorem fixOne_mem : ∀ (fix : List String) (a : PyArg),
    (Node.fixOne fix a).2 = none →
      ∀ s, s ∈ (Node.fixOne fix a).1 ↔ s ∈ fix ∨ s ∈ a.strings
  | fix, .str s0, _ => by
      intro s
      by_cases hs : s0 ∈ fix
      · simp only [Node.fixOne, hs, if_pos, PyArg.strings, List.mem_singleton]
        constructor
        · exact Or.inl
        · rintro (h | h)
          · exact h
          · rwa [h]
      · simp [Node.fixOne, hs, PyArg.strings]
  | fix, .lst l, hok => fixArgs_mem fix l hok
  | fix, .other, hok => by simp [Node.fixOne] at hok

/-- On success, processing a `fixDOF` argument list makes the `_fixity` list
contain exactly the old entries plus all strings of the arguments. -/
theorem fixArgs_mem : ∀ (fix : List String) (l : PyArgList),
    (Node.fixArgs fix l).2 = none →
      ∀ s, s ∈ (Node.fixArgs fix l).1 ↔ s ∈ fix ∨ s ∈ l.strings
  | fix, .nil, _ => by simp [Node.fixArgs, PyArgList.strings]
  | fix, .cons a rest, hok => by
      have hstep : Node.fixArgs fix (.cons a rest) =
          match Node.fixOne fix a with
          | (fix1, none) => Node.fixArgs fix1 rest
          | (fix1, some e) => (fix1, some e) := rfl
      rw [hstep] at hok ⊢
      cases hfo : Node.fixOne fix a with
      | mk fix1 e =>
        rw [hfo] at hok
        cases e with
        | none =>
            dsimp only at hok ⊢
            intro s
            have h1 := fixOne_mem fix a (by rw [hfo]) s
            rw [hfo] at h1
            have h2 := fixArgs_mem fix1 rest hok s
            rw [h2, h1]
            show _ ↔ s ∈ fix ∨ s ∈ a.strings ++ rest.strings
            rw [List.mem_append]
            tauto
        | some e =>
            dsimp only at hok
            cases hok

end

/-- The call `fixDOF('ux')`. -/
def argsSingle : PyArgList := .cons (.str "ux") .nil

/-- The call `fixDOF(['ux'])`. -/
def argsFlat : PyArgList := .cons (.lst (.cons (.str "ux") .nil)) .nil

/-- The call `fixDOF(['ux', ['ux']])`. -/
def argsNested : PyArgList :=
  .cons (.lst (.cons (.str "ux") (.cons (.lst (.cons (.str "ux") .nil)) .nil))) .nil

/-- Claim C8: `fixDOF` accepts a single code, a flat sequence, or arbitrarily
nested sequences and normalizes them recursively into a duplicate-free flat
fixed set — `fixDOF('ux')`, `fixDOF(['ux'])` and `fixDOF(['ux',['ux']])` all
leave the fixed set `['ux']` — while an argument element that is neither a
string nor a list/tuple raises `TypeError`. -/
theorem c8_fixDOF_normalization :
    ((Node.fixDOF initNode argsSingle).1.fixity = ["ux"]
      ∧ (Node.fixDOF initNode argsSingle).2 = none)
    ∧ ((Node.fixDOF initNode argsFlat).1.fixity = ["ux"]
      ∧ (Node.fixDOF initNode argsFlat).2 = none)
    ∧ ((Node.fixDOF initNode argsNested).1.fixity = ["ux"]
      ∧ (Node.fixDOF initNode argsNested).2 = none)
    ∧ (∀ (st : NodeState) (args : PyArgList),
        st.fixity.Nodup → ((Node.fixDOF st args).1.fixity).Nodup)
    ∧ (∀ (st : NodeState) (args : PyArgList), (Node.fixDOF st args).2 = none →
        ∀ s, s ∈ (Node.fixDOF st args).1.fixity ↔ s ∈ st.fixity ∨ s ∈ args.strings)
    ∧ (∀ st : NodeState,
        (Node.fixDOF st (.cons .other .nil)).2 = some "TypeError") := by
  refine ⟨⟨rfl, rfl⟩, ⟨rfl, rfl⟩, ⟨rfl, rfl⟩, ?_, ?_, fun st => rfl⟩
  · intro st args h
    exact fixArgs_nodup st.fixity args h
  · intro st args hok s
    exact fixArgs_mem st.fixity args hok s

/-- Witness for `c8_fixDOF_normalization` at a node with a non-empty fixed
set (`c2node` has `_fixity = ['uy']`). -/
theorem c8_fixDOF_witness :
    ((Node.fixDOF c2node argsNested).1.fixity).Nodup
    ∧ ("ux" ∈ (Node.fixDOF c2node argsNested).1.fixity ↔
        "ux" ∈ c2node.fixity ∨ "ux" ∈ argsNested.strings) :=
  ⟨c8_fixDOF_normalization.2.2.2.1 c2node argsNested (by decide),
   c8_fixDOF_normalization.2.2.2.2.1 c2node argsNested rfl "ux"⟩

/-- A successful lookup is stable under extending the dict on the right. -/
theorem dofLookup_append_some {l1 : List (String × Nat)} {c : String} {i : Nat}
    (h : dofLookup l1 c = some i) (l2 : List (String × Nat)) :
    dofLookup (l1 ++ l2) c = some i := by
  induction l1 with
  | nil => simp [dofLookup] at h
  | cons p rest ih =>
    obtain ⟨k, v⟩ := p
    by_cases hk : k = c
    · simpa [dofLookup, hk] using h
    · rw [List.cons_append]
      simp only [dofLookup, if_neg hk] at h ⊢
      exact ih h

/-- A failed lookup means the key is absent. -/
theorem dofLookup_eq_none_iff {l : List (String × Nat)} {c : String} :
    dofLookup l c = none ↔ c ∉ l.map Prod.fst := by
  induction l with
  | nil => simp [dofLookup]
  | cons p rest ih =>
    obtain ⟨k, v⟩ := p
    by_cases hk : k = c
    · simp [dofLookup, hk]
    · simp [dofLookup, hk, ih, Ne.symm hk]

/-- Looking up past an absent prefix continues in the suffix. -/
theorem dofLookup_append_of_none {l1 : List (String × Nat)} {c : String}
    (h : dofLookup l1 c = none) (l2 : List (String × Nat)) :
    dofLookup (l1 ++ l2) c = dofLookup l2 c := by
  induction l1 with
  | nil => rfl
  | cons p rest ih =>
    obtain ⟨k, v⟩ := p
    by_cases hk : k = c
    · simp [dofLookup, hk] at h
    · rw [List.cons_append]
      simp only [dofLookup, if_neg hk] at h ⊢
      exact ih h

/-- The `request` loop only ever appends new entries to the dict. -/
theorem requestGo_ext : ∀ (l : List String) (dofs : List (String × Nat)) (n : Nat),
    ∃ ext, (Node.requestGo dofs n l).1.1 = dofs ++ ext := by
  intro l
  induction l with
  | nil => exact fun dofs n => ⟨[], by simp [Node.requestGo]⟩
  | cons c rest ih =>
    intro dofs n
    cases hc : dofLookup dofs c with
    | some i =>
      obtain ⟨ext, hext⟩ := ih dofs n
      exact ⟨ext, by simp [Node.requestGo, hc, hext]⟩
    | none =>
      obtain ⟨ext, hext⟩ := ih (dofs ++ [(c, n)]) (n + 1)
      exact ⟨(c, n) :: ext, by simp [Node.requestGo, hc, hext]⟩

/-- The registry invariant of `self.dofs`: the assigned indices are exactly
`0..ndofs-1` in insertion order and the codes are pairwise distinct. -/
def DofWF (dofs : List (String × Nat)) (n : Nat) : Prop :=
  dofs.map Prod.snd = List.range n ∧ (dofs.map Prod.fst).Nodup

/-- The `request` loop preserves the registry invariant. -/
theorem requestGo_WF : ∀ (l : List String) (dofs : List (String × Nat)) (n : Nat),
    DofWF dofs n → DofWF (Node.requestGo dofs n l).1.1 (Node.requestGo dofs n l).1.2 := by
  intro l
  induction l with
  | nil => exact fun dofs n h => h
  | cons c rest ih =>
    intro dofs n h
    cases hc : dofLookup dofs c with
    | some i =>
      simpa [Node.requestGo, hc] using ih dofs n h
    | none =>
      have hnew : DofWF (dofs ++ [(c, n)]) (n + 1) := by
        constructor
        · rw [List.map_append, h.1, List.range_succ]
          rfl
        · rw [List.map_append, List.nodup_append]
          refine ⟨h.2, List.nodup_singleton c, fun x hx hx' => ?_⟩
          rw [List.map_singleton, List.mem_singleton] at hx'
          rw [hx'] at hx
          exact (dofLookup_eq_none_iff.mp hc) hx
      simpa [Node.requestGo, hc] using ih (dofs ++ [(c, n)]) (n + 1) hnew

/-- The `request` loop registers exactly the requested codes on top of the
previously registered ones. -/
theorem requestGo_keys : ∀ (l : List String) (dofs : List (String × Nat)) (n : Nat),
    ((Node.requestGo dofs n l).1.1.map Prod.fst).toFinset =
      (dofs.map Prod.fst).toFinset ∪ l.toFinset := by
  intro l
  induction l with
  | nil => simp [Node.requestGo]
  | cons c rest ih =>
    intro dofs n
    cases hc : dofLookup dofs c with
    | some i =>
      have hmem : c ∈ dofs.map Prod.fst := by
        have := dofLookup_mem hc
        exact List.mem_map_of_mem Prod.fst this
      have := ih dofs n
      simp only [Node.requestGo, hc]
      rw [this]
      ext x
      simp only [Finset.mem_union, List.mem_toFinset, List.mem_cons]
      constructor
      · rintro (hx | hx)
        · exact Or.inl hx
        · exact Or.inr (Or.inr hx)
      · rintro (hx | hx | hx)
        · exact Or.inl hx
        · exact Or.inl (by rwa [hx])
        · exact Or.inr hx
    | none =>
      have := ih (dofs ++ [(c, n)]) (n + 1)
      simp only [Node.requestGo, hc]
      rw [this]
      ext x
      simp only [Finset.mem_union, List.mem_toFinset, List.mem_cons, List.map_append,
        List.mem_append, List.map_singleton, List.mem_singleton]
      tauto

/-- The tuple returned by the `request` loop lists, code by code, the index
under which each requested code ends up registered. -/
theorem requestGo_tuple : ∀ (l : List String) (dofs : List (String × Nat)) (n : Nat),
    List.Forall₂ (fun c i => dofLookup (Node.requestGo dofs n l).1.1 c = some i)
      l (Node.requestGo dofs n l).2 := by
  intro l
  induction l with
  | nil => exact fun dofs n => List.Forall₂.nil
  | cons c rest ih =>
    intro dofs n
    cases hc : dofLookup dofs c with
    | some i =>
      simp only [Node.requestGo, hc]
      refine List.Forall₂.cons ?_ (ih dofs n)
      obtain ⟨ext, hext⟩ := requestGo_ext rest dofs n
      rw [hext]
      exact dofLookup_append_some hc ext
    | none =>
      simp only [Node.requestGo, hc]
      refine List.Forall₂.cons ?_ (ih (dofs ++ [(c, n)]) (n + 1))
      obtain ⟨ext, hext⟩ := requestGo_ext rest (dofs ++ [(c, n)]) (n + 1)
      rw [hext]
      have hbase : dofLookup (dofs ++ [(c, n)]) c = some n := by
        rw [dofLookup_append_of_none hc]
        simp [dofLookup]
      exact dofLookup_append_some hbase ext

/-- When every requested code is already registered, the `request` loop is a
pure read: the dict is unchanged and the returned tuple is the list of the
existing indices. -/
theorem requestGo_idem : ∀ (l : List String) (t : List Nat)
    (dofs : List (String × Nat)) (n : Nat),
    List.Forall₂ (fun c i => dofLookup dofs c = some i) l t →
    Node.requestGo dofs n l = ((dofs, n), t) := by
  intro l
  induction l with
  | nil =>
    intro t dofs n h
    cases h
    rfl
  | cons c rest ih =>
    intro t dofs n h
    cases h with
    | cons hci hrest =>
      rename_i i trest
      simp [Node.requestGo, hci, ih trest dofs n hrest]

/-- Any sequence of `request(dof_list, caller)` calls applied to a node. -/
def requestAll (st : NodeState) : List (List String × Nat) → NodeState
  | [] => st
  | r :: rest => requestAll (Node.request st r.1 r.2).1 rest

/-- `request` preserves the registry invariant of `self.dofs`. -/
theorem request_WF (st : NodeState) (l : List String) (e : Nat)
    (h : DofWF st.dofs st.ndofs) :
    DofWF (Node.request st l e).1.dofs (Node.request st l e).1.ndofs :=
  requestGo_WF l st.dofs st.ndofs h

/-- Sequences of `request` calls preserve the registry invariant. -/
theorem requestAll_WF : ∀ (reqs : List (List String × Nat)) (st : NodeState),
    DofWF st.dofs st.ndofs →
    DofWF (requestAll st reqs).dofs (requestAll st reqs).ndofs := by
  intro reqs
  induction reqs with
  | nil => exact fun st h => h
  | cons r rest ih =>
    intro st h
    exact ih (Node.request st r.1 r.2).1 (request_WF st r.1 r.2 h)

/-- After a sequence of `request` calls the registered codes are exactly the
previously registered ones plus every code appearing in the calls. -/
theorem requestAll_keys : ∀ (reqs : List (List String × Nat)) (st : NodeState),
    (((requestAll st reqs).dofs).map Prod.fst).toFinset =
      ((st.dofs.map Prod.fst).toFinset) ∪ ((reqs.map Prod.fst).flatten).toFinset := by
  intro reqs
  induction reqs with
  | nil => simp [requestAll]
  | cons r rest ih =>
    intro st
    have hstep : ((Node.request st r.1 r.2).1.dofs.map Prod.fst).toFinset =
        ((st.dofs.map Prod.fst).toFinset) ∪ r.1.toFinset :=
      requestGo_keys r.1 st.dofs st.ndofs
    calc (((requestAll (Node.request st r.1 r.2).1 rest).dofs).map Prod.fst).toFinset
        = (((Node.request st r.1 r.2).1.dofs.map Prod.fst).toFinset) ∪
            ((rest.map Prod.fst).flatten).toFinset := ih _
      _ = ((st.dofs.map Prod.fst).toFinset) ∪ r.1.toFinset ∪
            ((rest.map Prod.fst).flatten).toFinset := by rw [hstep]
      _ = ((st.dofs.map Prod.fst).toFinset) ∪
            (((r :: rest).map Prod.fst).flatten).toFinset := by
            rw [List.map_cons, List.flatten_cons, List.toFinset_append, Finset.union_assoc]

/-- Claim C3: after any sequence of `request` calls from any callers, the
assigned indices are exactly `0..ndofs-1` with `ndofs` the number of distinct
codes ever requested; a `request` returns, per code, the index under which
that code is registered afterwards; requesting an already-known code (same or
different caller) returns the index it already had; and repeating a request
with the same codes returns the same tuple. -/
theorem c3_request_indices (reqs : List (List String × Nat)) :
    ((requestAll initNode reqs).dofs.map Prod.snd =
        List.range (requestAll initNode reqs).ndofs)
    ∧ (requestAll initNode reqs).ndofs = ((reqs.map Prod.fst).flatten).toFinset.card
    ∧ (∀ (l : List String) (e : Nat),
        List.Forall₂
          (fun c i => dofLookup (Node.request (requestAll initNode reqs) l e).1.dofs c = some i)
          l (Node.request (requestAll initNode reqs) l e).2)
    ∧ (∀ (l : List String) (e : Nat) (c : String) (i : Nat),
        dofLookup (requestAll initNode reqs).dofs c = some i →
        dofLookup (Node.request (requestAll initNode reqs) l e).1.dofs c = some i)
    ∧ (∀ (l : List String) (e : Nat),
        (Node.request (Node.request (requestAll initNode reqs) l e).1 l e).2 =
          (Node.request (requestAll initNode reqs) l e).2) := by
  have hinit : DofWF initNode.dofs initNode.ndofs := ⟨rfl, List.nodup_nil⟩
  have hWF := requestAll_WF reqs initNode hinit
  have hkeys := requestAll_keys reqs initNode
  refine ⟨hWF.1, ?_, ?_, ?_, ?_⟩
  · have hlen : (requestAll initNode reqs).dofs.length = (requestAll initNode reqs).ndofs := by
      have := congrArg List.length hWF.1
      simpa using this
    have hcard : (((requestAll initNode reqs).dofs.map Prod.fst).toFinset).card =
        (requestAll initNode reqs).dofs.length := by
      rw [List.toFinset_card_of_nodup hWF.2, List.length_map]
    rw [show ((initNode.dofs.map Prod.fst).toFinset) = (∅ : Finset String) from rfl,
      Finset.empty_union] at hkeys
    rw [← hlen, ← hcard, hkeys]
  · intro l e
    exact requestGo_tuple l (requestAll initNode reqs).dofs (requestAll initNode reqs).ndofs
  · intro l e c i h
    obtain ⟨ext, hext⟩ :=
      requestGo_ext l (requestAll initNode reqs).dofs (requestAll initNode reqs).ndofs
    show dofLookup
      (Node.requestGo (requestAll initNode reqs).dofs (requestAll initNode reqs).ndofs l).1.1
      c = some i
    rw [hext]
    exact dofLookup_append_some h ext
  · intro l e
    have htuple :=
      requestGo_tuple l (requestAll initNode reqs).dofs (requestAll initNode reqs).ndofs
    have hid := requestGo_idem l
      ((Node.requestGo (requestAll initNode reqs).dofs (requestAll initNode reqs).ndofs l).2)
      ((Node.requestGo (requestAll initNode reqs).dofs (requestAll initNode reqs).ndofs l).1.1)
      ((Node.requestGo (requestAll initNode reqs).dofs (requestAll initNode reqs).ndofs l).1.2)
      htuple
    show (Node.requestGo
        (Node.requestGo (requestAll initNode reqs).dofs (requestAll initNode reqs).ndofs l).1.1
        (Node.requestGo (requestAll initNode reqs).dofs (requestAll initNode reqs).ndofs l).1.2
        l).2 =
      (Node.requestGo (requestAll initNode reqs).dofs (requestAll initNode reqs).ndofs l).2
    exact congrArg Prod.snd hid

/-- The request sequence used in the witness of claim C3: two elements with
overlapping dof lists. -/
def c3reqs : List (List String × Nat) := [(["ux", "uy"], 0), (["uy", "rz"], 1)]

/-- Witness for `c3_request_indices`: three distinct codes were requested, so
`ndofs = 3`, and re-requesting `uy` from a third element returns its original
index 1. -/
theorem c3_request_indices_witness :
    (requestAll initNode c3reqs).ndofs = 3
    ∧ dofLookup (Node.request (requestAll initNode c3reqs) ["uy"] 7).1.dofs "uy" = some 1 :=
  ⟨(c3_request_indices c3reqs).2.1.trans (by decide),
   (c3_request_indices c3reqs).2.2.2.1 ["uy"] 7 "uy" 1 (by decide)⟩

/-- Reading below the old length is unaffected by appending to the store. -/
theorem readM_append_lt (s t : List Mat) (r : Nat) (h : r < s.length) :
    readM (s ++ t) r = readM s r := by
  unfold readM
  rw [List.getD_eq_getElem?_getD, List.getD_eq_getElem?_getD, List.getElem?_append, if_pos h]

/-- Reading at an offset past the old length reads the appended part. -/
theorem readM_append_add (s t : List Mat) (k : Nat) :
    readM (s ++ t) (s.length + k) = readM t k := by
  unfold readM
  rw [List.getD_eq_getElem?_getD, List.getD_eq_getElem?_getD,
    List.getElem?_append_right (Nat.le_add_right _ _), Nat.add_sub_cancel_left]

/-- Writing one block object leaves every other block object unchanged. -/
theorem readM_writeM_ne (s : List Mat) (r t : Nat) (v : Mat) (h : r ≠ t) :
    readM (writeM s r v) t = readM s t := by
  unfold readM writeM
  rw [List.getD_eq_getElem?_getD, List.getD_eq_getElem?_getD, List.getElem?_set_ne h]

/-- Total length of the first `i` rows of a block matrix (row-major offset of
row `i` within the flattened matrix). -/
def sumTake : List (List Nat) → Nat → Nat
  | _, 0 => 0
  | [], _ + 1 => 0
  | row :: rows, i + 1 => row.length + sumTake rows i

/-- The reference layout produced by deep-copying a block matrix whose rows
have the given lengths: row `i` holds consecutive references starting at
`start` plus the total length of the earlier rows. -/
def refShape (start : Nat) : List (List Nat) → List (List Nat)
  | [] => []
  | row :: rows => List.range' start row.length :: refShape (start + row.length) rows

/-- Deep copy of one row: the store is extended by the row's block values and
the returned references are consecutive fresh indices. -/
theorem deepcopyRow_eq : ∀ (row : List Nat) (s : List Mat),
    (∀ r ∈ row, r < s.length) →
    deepcopyRow s row = (s ++ row.map (readM s), List.range' s.length row.length) := by
  intro row
  induction row with
  | nil => intro s _; simp [deepcopyRow]
  | cons r rest ih =>
    intro s Hv
    have hr : r < s.length := Hv r (List.mem_cons_self r rest)
    have Hv' : ∀ r' ∈ rest, r' < (s ++ [readM s r]).length := by
      intro r' hr'
      have := Hv r' (List.mem_cons_of_mem r hr')
      simp only [List.length_append, List.length_singleton]
      omega
    have hmap : rest.map (readM (s ++ [readM s r])) = rest.map (readM s) := by
      apply List.map_congr_left
      intro r' hr'
      exact readM_append_lt s [readM s r] r' (Hv r' (List.mem_cons_of_mem r hr'))
    have hstep : deepcopyRow s (r :: rest) =
        ((deepcopyRow (s ++ [readM s r]) rest).1,
          s.length :: (deepcopyRow (s ++ [readM s r]) rest).2) := rfl
    rw [hstep, ih (s ++ [readM s r]) Hv']
    have hlen : (s ++ [readM s r]).length = s.length + 1 := by
      simp
    rw [hmap, hlen]
    dsimp only
    simp only [Prod.mk.injEq]
    refine ⟨?_, ?_⟩
    · rw [List.append_assoc]
      rfl
    · rfl

/-- Deep copy of the whole block matrix: the store is extended by all block
values in row-major order and the returned reference table is `refShape`. -/
theorem deepcopyKt_eq : ∀ (kt : List (List Nat)) (s : List Mat),
    (∀ row ∈ kt, ∀ r ∈ row, r < s.length) →
    deepcopyKt s kt = (s ++ (kt.flatten).map (readM s), refShape s.length kt) := by
  intro kt
  induction kt with
  | nil => intro s _; simp [deepcopyKt, refShape]
  | cons row rows ih =>
    intro s Hv
    have hrow : ∀ r ∈ row, r < s.length := Hv row (List.mem_cons_self row rows)
    have hstep : deepcopyKt s (row :: rows) =
        ((deepcopyKt (deepcopyRow s row).1 rows).1,
          (deepcopyRow s row).2 :: (deepcopyKt (deepcopyRow s row).1 rows).2) := rfl
    rw [hstep, deepcopyRow_eq row s hrow]
    have Hv' : ∀ row' ∈ rows, ∀ r ∈ row', r < (s ++ row.map (readM s)).length := by
      intro row' hrow' r hr
      have := Hv row' (List.mem_cons_of_mem row hrow') r hr
      simp only [List.length_append]
      omega
    rw [ih (s ++ row.map (readM s)) Hv']
    have hmap : (rows.flatten).map (readM (s ++ row.map (readM s))) =
        (rows.flatten).map (readM s) := by
      apply List.map_congr_left
      intro r hr
      obtain ⟨row', hrow', hrm⟩ := List.mem_flatten.mp hr
      exact readM_append_lt _ _ _ (Hv row' (List.mem_cons_of_mem row hrow') r hrm)
    have hlen : (s ++ row.map (readM s)).length = s.length + row.length := by
      simp
    rw [hmap, hlen]
    dsimp only
    simp only [Prod.mk.injEq]
    refine ⟨?_, ?_⟩
    · rw [List.append_assoc, List.flatten_cons, List.map_append]
    · rfl

/-- `refShape` has one reference row per block row. -/
theorem refShape_length : ∀ (kt : List (List Nat)) (start : Nat),
    (refShape start kt).length = kt.length := by
  intro kt
  induction kt with
  | nil => intro start; rfl
  | cons row rows ih => intro start; simp [refShape, ih]

/-- Row `i` of `refShape` is the consecutive block of references whose offset
is the total length of the earlier rows. -/
theorem refShape_getD : ∀ (kt : List (List Nat)) (start i : Nat), i < kt.length →
    (refShape start kt).getD i [] =
      List.range' (start + sumTake kt i) (kt.getD i []).length := by
  intro kt
  induction kt with
  | nil => intro start i hi; simp at hi
  | cons row rows ih =>
    intro start i hi
    cases i with
    | zero => simp [refShape, sumTake]
    | succ i =>
      have hi' : i < rows.length := by simpa using hi
      show (refShape (start + row.length) rows).getD i [] = _
      rw [ih (start + row.length) i hi']
      have : start + row.length + sumTake rows i = start + sumTake (row :: rows) (i + 1) := by
        show _ = start + (row.length + sumTake rows i)
        omega
      rw [this]
      rfl

/-- Every reference produced by `refShape` is at least `start` (freshness). -/
theorem refShape_mem_ge : ∀ (kt : List (List Nat)) (start : Nat) (row : List Nat) (r : Nat),
    row ∈ refShape start kt → r ∈ row → start ≤ r := by
  intro kt
  induction kt with
  | nil => intro start row r h; simp [refShape] at h
  | cons row0 rows ih =>
    intro start row r hrow hr
    rw [refShape, List.mem_cons] at hrow
    rcases hrow with hrow | hrow
    · rw [hrow] at hr
      rw [List.mem_range'_1] at hr
      exact hr.1
    · have := ih (start + row0.length) row r hrow hr
      omega

/-- Entries of `range'` read by position. -/
theorem range'_getD (a m j : Nat) (h : j < m) : (List.range' a m).getD j 0 = a + j := by
  rw [List.getD_eq_getElem _ _ (by rw [List.length_range']; exact h)]
  exact List.getElem_range'_1 j _

/-- `sumTake` at a successor position within the matrix. -/
theorem sumTake_succ : ∀ (kt : List (List Nat)) (i : Nat), i < kt.length →
    sumTake kt (i + 1) = sumTake kt i + (kt.getD i []).length := by
  intro kt
  induction kt with
  | nil => intro i hi; simp at hi
  | cons row rows ih =>
    intro i hi
    cases i with
    | zero => show row.length + sumTake rows 0 = 0 + row.length; cases rows <;> simp [sumTake]
    | succ i =>
      have hi' : i < rows.length := by simpa using hi
      show row.length + sumTake rows (i + 1) = row.length + sumTake rows i + _
      rw [ih i hi']
      simp only [List.getD_cons_succ]
      omega

/-- `sumTake` is monotone in the row position. -/
theorem sumTake_mono : ∀ (kt : List (List Nat)) (i j : Nat), i ≤ j →
    sumTake kt i ≤ sumTake kt j := by
  intro kt
  induction kt with
  | nil =>
    intro i j _
    have hz : ∀ k, sumTake ([] : List (List Nat)) k = 0 := by
      intro k; cases k <;> rfl
    rw [hz i, hz j]
  | cons row rows ih =>
    intro i j hij
    cases i with
    | zero =>
      show 0 ≤ _
      exact Nat.zero_le _
    | succ i =>
      cases j with
      | zero => omega
      | succ j =>
        show row.length + sumTake rows i ≤ row.length + sumTake rows j
        have := ih i j (by omega)
        omega

/-- Row-major offsets of positions in an earlier row are strictly smaller
than the offset of any later row. -/
theorem sumTake_flat_lt (kt : List (List Nat)) (i i' j : Nat)
    (hii' : i < i') (hi' : i' ≤ kt.length) (hj : j < (kt.getD i []).length) :
    sumTake kt i + j < sumTake kt i' := by
  have h1 : sumTake kt i + j < sumTake kt i + (kt.getD i []).length := by omega
  rw [← sumTake_succ kt i (by omega)] at h1
  exact lt_of_lt_of_le h1 (sumTake_mono kt (i + 1) i' hii')

/-- Row-major flattening indices are injective on in-range positions. -/
theorem flatIndex_inj (kt : List (List Nat)) (i j i' j' : Nat)
    (hi : i < kt.length) (hi' : i' < kt.length)
    (hj : j < (kt.getD i []).length) (hj' : j' < (kt.getD i' []).length)
    (he : sumTake kt i + j = sumTake kt i' + j') : i = i' ∧ j = j' := by
  rcases Nat.lt_trichotomy i i' with h | h | h
  · have := sumTake_flat_lt kt i i' j h (by omega) hj
    have hmono := sumTake_mono kt i' i' (le_refl i')
    omega
  · subst h
    omega
  · have := sumTake_flat_lt kt i' i j' h (by omega) hj'
    omega

/-- Reading the flattened matrix at a row-major offset reads the block at
that (row, column) position. -/
theorem flatten_getD : ∀ (kt : List (List ℕ)) (i j : Nat) (d : Nat), i < kt.length →
    j < (kt.getD i []).length →
    (kt.flatten).getD (sumTake kt i + j) d = (kt.getD i []).getD j d := by
  intro kt
  induction kt with
  | nil => intro i j d hi _; simp at hi
  | cons row rows ih =>
    intro i j d hi hj
    cases i with
    | zero =>
      show (row ++ rows.flatten).getD (0 + j) d = _
      rw [Nat.zero_add, List.getD_eq_getElem?_getD, List.getElem?_append,
        if_pos (by exact hj : j < row.length)]
      rw [List.getD_eq_getElem?_getD]
      rfl
    | succ i =>
      have hi' : i < rows.length := by simpa using hi
      show (row ++ rows.flatten).getD (row.length + sumTake rows i + j) d = _
      rw [List.getD_eq_getElem?_getD, List.getElem?_append,
        if_neg (by omega), show row.length + sumTake rows i + j - row.length =
          sumTake rows i + j by omega, ← List.getD_eq_getElem?_getD]
      exact ih i j d hi' hj

/-- The inner stiffness-transform loop only writes blocks whose endpoint pair
carries a transformation: any other block object keeps its value. -/
theorem applyRow_frame : ∀ (l : List (Nat × Option Mat)) (trI : Option Mat)
    (s : List Mat) (t : Nat),
    (∀ p ∈ l, (trI.isSome ∨ p.2.isSome) → p.1 ≠ t) →
    readM (applyRow trI s l) t = readM s t := by
  intro l
  induction l with
  | nil => intro trI s t _; rfl
  | cons p rest ih =>
    intro trI s t H
    obtain ⟨r, trJ⟩ := p
    have hstep : applyRow trI s ((r, trJ) :: rest) =
        applyRow trI
          (if trI.isSome ∨ trJ.isSome then writeM s r (blockTransform trI trJ (readM s r))
            else s) rest := rfl
    rw [hstep]
    by_cases hg : trI.isSome ∨ trJ.isSome
    · rw [if_pos hg]
      rw [ih trI _ t (fun p hp => H p (List.mem_cons_of_mem _ hp))]
      exact readM_writeM_ne s r t _ (H (r, trJ) (List.mem_cons_self _ _) hg)
    · rw [if_neg hg]
      exact ih trI s t (fun p hp => H p (List.mem_cons_of_mem _ hp))

/-- The outer stiffness-transform loop only writes blocks whose endpoint pair
carries a transformation. -/
theorem applyAll_frame : ∀ (rows : List (List Nat × Option Mat)) (trs : List (Option Mat))
    (s : List Mat) (t : Nat),
    (∀ q ∈ rows, ∀ p ∈ q.1.zip trs, (q.2.isSome ∨ p.2.isSome) → p.1 ≠ t) →
    readM (applyAll trs s rows) t = readM s t := by
  intro rows
  induction rows with
  | nil => intro trs s t _; rfl
  | cons q rest ih =>
    intro trs s t H
    obtain ⟨row, trI⟩ := q
    have hstep : applyAll trs s ((row, trI) :: rest) =
        applyAll trs (applyRow trI s (row.zip trs)) rest := rfl
    rw [hstep]
    rw [ih trs _ t (fun q hq => H q (List.mem_cons_of_mem _ hq))]
    exact applyRow_frame (row.zip trs) trI s t
      (fun p hp => H (row, trI) (List.mem_cons_self _ _) p hp)

/-- Membership in a zip comes from a common position in both lists. -/
theorem mem_zip_get {α β : Type} (l1 : List α) (l2 : List β) (p : α × β)
    (h : p ∈ l1.zip l2) :
    ∃ k, ∃ h1 : k < l1.length, ∃ h2 : k < l2.length, p = (l1.get ⟨k, h1⟩, l2.get ⟨k, h2⟩) := by
  obtain ⟨n, hn, hget⟩ := List.getElem_of_mem h
  have hlen : (l1.zip l2).length = min l1.length l2.length := List.length_zip l1 l2
  have h1 : n < l1.length := by omega
  have h2 : n < l2.length := by omega
  refine ⟨n, h1, h2, ?_⟩
  rw [← hget, List.getElem_zip]
  rfl

/-- The flattened block matrix has as many entries as the total of all row
lengths. -/
theorem flatten_length_eq_sumTake : ∀ kt : List (List ℕ),
    (kt.flatten).length = sumTake kt kt.length := by
  intro kt
  induction kt with
  | nil => rfl
  | cons row rows ih =>
    show (row ++ rows.flatten).length = row.length + sumTake rows rows.length
    rw [List.length_append, ih]

/-- Claim C5: `getStiffness()` runs `updateState` (the external contract,
passed as `upd`), deep-copies the internal block matrix and congruence-
transforms the copy.  The element comes back untouched; every block object
of the internal store keeps its value; every returned reference is fresh
(disjoint from the internal ones, so mutating the returned matrix cannot
affect internal state); and a block whose two endpoint nodes carry no
transformation is returned with exactly the raw internal block value. -/
theorem c5_getStiffness_untransformed_identity
    (upd : List Mat × Elem5 → List Mat × Elem5) (ss : List Mat × Elem5)
    (Hlen : (upd ss).2.Kt.length = (upd ss).2.nodeTransforms.length)
    (Hrow : ∀ row ∈ (upd ss).2.Kt, row.length = (upd ss).2.nodeTransforms.length)
    (Hvalid : ∀ row ∈ (upd ss).2.Kt, ∀ r ∈ row, r < (upd ss).1.length) :
    (Element.getStiffness upd ss).1.2 = (upd ss).2
    ∧ (∀ r < (upd ss).1.length,
        readM (Element.getStiffness upd ss).1.1 r = readM (upd ss).1 r)
    ∧ (∀ row ∈ (Element.getStiffness upd ss).2, ∀ r ∈ row, (upd ss).1.length ≤ r)
    ∧ (∀ i j, i < (upd ss).2.nodeTransforms.length → j < (upd ss).2.nodeTransforms.length →
        (upd ss).2.nodeTransforms.getD i none = none →
        (upd ss).2.nodeTransforms.getD j none = none →
        readM (Element.getStiffness upd ss).1.1
            (((Element.getStiffness upd ss).2.getD i []).getD j 0) =
          readM (upd ss).1 (((upd ss).2.Kt.getD i []).getD j 0)) := by
  have hcopy : deepcopyKt (upd ss).1 (upd ss).2.Kt =
      ((upd ss).1 ++ ((upd ss).2.Kt.flatten).map (readM (upd ss).1),
        refShape (upd ss).1.length (upd ss).2.Kt) :=
    deepcopyKt_eq (upd ss).2.Kt (upd ss).1 Hvalid
  have hKT : (Element.getStiffness upd ss).2 =
      refShape (upd ss).1.length (upd ss).2.Kt := by
    show (deepcopyKt (upd ss).1 (upd ss).2.Kt).2 = _
    rw [hcopy]
  have hs3 : (Element.getStiffness upd ss).1.1 =
      applyAll (upd ss).2.nodeTransforms
        ((upd ss).1 ++ ((upd ss).2.Kt.flatten).map (readM (upd ss).1))
        ((refShape (upd ss).1.length (upd ss).2.Kt).zip (upd ss).2.nodeTransforms) := by
    show applyAll (upd ss).2.nodeTransforms (deepcopyKt (upd ss).1 (upd ss).2.Kt).1
        ((deepcopyKt (upd ss).1 (upd ss).2.Kt).2.zip (upd ss).2.nodeTransforms) = _
    rw [hcopy]
  have hfreshmem : ∀ row ∈ refShape (upd ss).1.length (upd ss).2.Kt, ∀ r ∈ row,
      (upd ss).1.length ≤ r :=
    fun row hrow r hr => refShape_mem_ge (upd ss).2.Kt (upd ss).1.length row r hrow hr
  refine ⟨rfl, ?_, ?_, ?_⟩
  · intro r hr
    rw [hs3, applyAll_frame _ _ _ r ?framecond]
    · exact readM_append_lt _ _ _ hr
    case framecond =>
      intro q hq p hp _
      have hq1 := (List.of_mem_zip hq).1
      have hp1 := (List.of_mem_zip hp).1
      have := hfreshmem q.1 hq1 p.1 hp1
      omega
  · intro row hrow r hr
    rw [hKT] at hrow
    exact hfreshmem row hrow r hr
  · intro i j hi hj htri htrj
    have hikt : i < (upd ss).2.Kt.length := by omega
    have hgetDi : (upd ss).2.Kt.getD i [] = (upd ss).2.Kt[i] :=
      List.getD_eq_getElem _ _ hikt
    have hrowi : ((upd ss).2.Kt.getD i []).length = (upd ss).2.nodeTransforms.length := by
      rw [hgetDi]
      exact Hrow _ (List.getElem_mem hikt)
    have hjlen : j < ((upd ss).2.Kt.getD i []).length := by omega
    have hKTij : ((Element.getStiffness upd ss).2.getD i []).getD j 0 =
        (upd ss).1.length + (sumTake (upd ss).2.Kt i + j) := by
      rw [hKT, refShape_getD _ _ i hikt, range'_getD _ _ j hjlen, Nat.add_assoc]
    rw [hs3, hKTij]
    rw [applyAll_frame _ _ _ _ ?noalias]
    case noalias =>
      intro q hq p hp hguard heq
      obtain ⟨i', hi'1, hi'2, hqe⟩ := mem_zip_get _ _ q hq
      have hi'kt : i' < (upd ss).2.Kt.length := by
        have := refShape_length (upd ss).2.Kt (upd ss).1.length
        omega
      have hq1 : q.1 = List.range'
          ((upd ss).1.length + sumTake (upd ss).2.Kt i')
          (((upd ss).2.Kt.getD i' []).length) := by
        rw [hqe]
        show (refShape (upd ss).1.length (upd ss).2.Kt)[i'] = _
        rw [← List.getD_eq_getElem _ [] hi'1]
        exact refShape_getD _ _ i' hi'kt
      obtain ⟨j', hj'1, hj'2, hpe⟩ := mem_zip_get _ _ p hp
      have hj'len : j' < ((upd ss).2.Kt.getD i' []).length := by
        rw [hq1] at hj'1
        rwa [List.length_range'] at hj'1
      have hp1 : p.1 = (upd ss).1.length + sumTake (upd ss).2.Kt i' + j' := by
        rw [hpe]
        show q.1[j'] = _
        rw [← List.getD_eq_getElem _ 0 hj'1, hq1,
          range'_getD _ _ j' hj'len]
      rw [hp1] at heq
      have hflat : sumTake (upd ss).2.Kt i' + j' = sumTake (upd ss).2.Kt i + j := by omega
      obtain ⟨hii, hjj⟩ := flatIndex_inj (upd ss).2.Kt i' j' i j hi'kt hikt hj'len hjlen hflat
      subst hii
      subst hjj
      have hq2 : q.2 = none := by
        rw [hqe]
        show (upd ss).2.nodeTransforms[i'] = none
        rw [← List.getD_eq_getElem _ none hi'2]
        exact htri
      have hp2 : p.2 = none := by
        rw [hpe]
        show (upd ss).2.nodeTransforms[j'] = none
        rw [← List.getD_eq_getElem _ none hj'2]
        exact htrj
      rw [hq2, hp2] at hguard
      simp at hguard
    rw [readM_append_add]
    have hk : sumTake (upd ss).2.Kt i + j < ((upd ss).2.Kt.flatten).length := by
      rw [flatten_length_eq_sumTake]
      have h1 := sumTake_succ (upd ss).2.Kt i hikt
      have h2 := sumTake_mono (upd ss).2.Kt (i + 1) (upd ss).2.Kt.length (by omega)
      omega
    show (((upd ss).2.Kt.flatten).map (readM (upd ss).1)).getD
        (sumTake (upd ss).2.Kt i + j) [] = _
    rw [List.getD_eq_getElem _ [] (by rw [List.length_map]; exact hk), List.getElem_map,
      ← List.getD_eq_getElem _ 0 hk, flatten_getD (upd ss).2.Kt i j 0 hikt hjlen]

/-- A one-node element with a single `1x1` stiffness block and no
transformation attached to its node, used in the witness of claim C5. -/
def ss0 : List Mat × Elem5 :=
  ([[[(1 : ℚ)]]], { Kt := [[0]], nodeTransforms := [none] })

/-- Witness for `c5_getStiffness_untransformed_identity` with the external
`updateState` contract taken as the identity. -/
theorem c5_getStiffness_witness :
    (Element.getStiffness id ss0).1.2 = ss0.2
    ∧ readM (Element.getStiffness id ss0).1.1
        (((Element.getStiffness id ss0).2.getD 0 []).getD 0 0) =
      readM ss0.1 ((ss0.2.Kt.getD 0 []).getD 0 0)
    ∧ (∀ row ∈ (Element.getStiffness id ss0).2, ∀ r ∈ row, ss0.1.length ≤ r) :=
  have h := c5_getStiffness_untransformed_identity id ss0 (by decide) (by decide) (by decide)
  ⟨h.1, h.2.2.2 0 0 (by decide) (by decide) rfl rfl, h.2.2.1⟩
